import Mathlib

/-!
Verification of the COROS strength-exercise extraction utility
(`research/extract-exercises.py`).

The script loads a localization table (a JavaScript assignment wrapping a
JSON object), loads raw exercise records, resolves display names and
category labels, sorts by name, and writes JSON and CSV outputs.  Below we
embed the data model and every transformation step; Python dictionaries
become functions into `Option`, absent record fields become `Option.none`,
and a Python `KeyError` becomes an `Option.none` result of the transform.
-/

/-- Static body-part lookup table (`BODY_PARTS` in the script). -/
def BODY_PARTS (p : Int) : Option String :=
  if p = 0 then some "Whole Body"
  else if p = 1 then some "Shoulders"
  else if p = 2 then some "Chest"
  else if p = 3 then some "Back"
  else if p = 4 then some "Core"
  else if p = 5 then some "Legs/Hips"
  else if p = 6 then some "Arms"
  else none

/-- Static equipment lookup table (`EQUIPMENT` in the script). -/
def EQUIPMENT (e : Int) : Option String :=
  if e = 1 then some "Bodyweight"
  else if e = 2 then some "Dumbbells"
  else if e = 3 then some "Barbells"
  else if e = 4 then some "Barbell Plates"
  else if e = 5 then some "Cable/Pulley"
  else if e = 6 then some "Gym Equipment"
  else if e = 7 then some "Exercise Ball"
  else if e = 8 then some "Bosu Ball"
  else if e = 9 then some "Bands"
  else if e = 10 then some "Medicine Ball"
  else if e = 11 then some "Kettlebell"
  else if e = 12 then some "Hangboard"
  else if e = 13 then some "Indoor Rower"
  else if e = 16 then some "Ropes"
  else none

/-- Static muscle lookup table (`MUSCLES` in the script). -/
def MUSCLES (m : Int) : Option String :=
  if m = 1 then some "Deltoids"
  else if m = 2 then some "Chest"
  else if m = 3 then some "Biceps"
  else if m = 4 then some "Triceps"
  else if m = 5 then some "Forearms"
  else if m = 6 then some "Abs"
  else if m = 7 then some "Glutes"
  else if m = 8 then some "Quadriceps"
  else if m = 9 then some "Adductor"
  else if m = 10 then some "Abductor"
  else if m = 11 then some "Trapezius"
  else if m = 12 then some "Latissimus Dorsi"
  else if m = 13 then some "Erector Spinae"
  else if m = 14 then some "Posterior Thigh"
  else if m = 15 then some "Calves"
  else none

/-- The fallback label for a code absent from a lookup table:
`f"Unknown({c})"` with the integer rendered in decimal. -/
def unknownLabel (c : Int) : String := "Unknown(" ++ toString c ++ ")"

/-- `table.get(c, f"Unknown({c})")`: label for one category code. -/
def lookupLabel (table : Int → Option String) (c : Int) : String :=
  (table c).getD (unknownLabel c)

/-- A raw exercise record as read from `strength-exercises.json`; each
field is optional because the source dictionaries need not carry it. -/
structure RawExerciseRecord where
  name : Option String
  part : Option (List Int)
  muscle : Option (List Int)
  equipment : Option (List Int)
  coverUrlArrStr : Option String
  videoUrl : Option String
deriving DecidableEq

/-- A clean output record, with all codes resolved to display strings. -/
structure CleanExerciseRecord where
  name : String
  body_parts : List String
  muscles : List String
  equipment : List String
  thumbnail : String
  video : String
deriving DecidableEq

/-- Python `s.split(",")` on a character list: list of comma-free groups;
the empty input yields one empty group, like `"".split(",") == [""]`. -/
def splitCommaAux : List Char → List (List Char)
  | [] => [[]]
  | ',' :: rest => [] :: splitCommaAux rest
  | c :: rest =>
    match splitCommaAux rest with
    | [] => [[c]]
    | g :: gs => (c :: g) :: gs

/-- Python `s.split(",")` on strings. -/
def pySplitComma (s : String) : List String :=
  (splitCommaAux s.data).map String.mk

/-- Transform one raw record into a clean record (the loop body of `main`).
`ex["name"]` is a plain subscript in the source, so a record with no
`name` field raises `KeyError`; we model that as `none`.  All other
fields are fetched with `.get` and a default. -/
def transformRecord (i18n : String → Option String) (ex : RawExerciseRecord) :
    Option CleanExerciseRecord :=
  match ex.name with
  | none => none
  | some name_code =>
    let name := (i18n name_code).getD name_code
    let covers := (ex.coverUrlArrStr).getD ""
    let thumbnail := if covers ≠ "" then (pySplitComma covers).headD "" else ""
    let video := (ex.videoUrl).getD ""
    some
      ⟨name,
       ((ex.part).getD []).map (lookupLabel BODY_PARTS),
       ((ex.muscle).getD []).map (lookupLabel MUSCLES),
       ((ex.equipment).getD []).map (lookupLabel EQUIPMENT),
       thumbnail,
       video⟩

/-- Transform all records in input order, aborting on the first failing
record, exactly as the Python `for` loop would propagate a `KeyError`. -/
def transformAll (i18n : String → Option String) :
    List RawExerciseRecord → Option (List CleanExerciseRecord)
  | [] => some []
  | ex :: rest =>
    match transformRecord i18n ex with
    | none => none
    | some r =>
      match transformAll i18n rest with
      | none => none
      | some rs => some (r :: rs)

/-- The comparison used by `results.sort(key=lambda r: r["name"])`:
Python compares the name strings by code point, as Lean's `≤` does. -/
def byName (a b : CleanExerciseRecord) : Prop := a.name ≤ b.name

instance : DecidableRel byName := fun a b => inferInstanceAs (Decidable (a.name ≤ b.name))

instance : IsTrans CleanExerciseRecord byName :=
  ⟨fun _ _ _ hab hbc => le_trans hab hbc⟩

instance : IsTotal CleanExerciseRecord byName :=
  ⟨fun a b => le_total a.name b.name⟩

/-- The stable sort by display name (`results.sort(...)` in the script);
Python's sort is stable, which `List.insertionSort` models exactly. -/
def sortResults (rs : List CleanExerciseRecord) : List CleanExerciseRecord :=
  rs.insertionSort byName

/-- The whole in-memory pipeline of `main`: transform every raw record,
then sort by name. -/
def runPipeline (i18n : String → Option String) (exs : List RawExerciseRecord) :
    Option (List CleanExerciseRecord) :=
  (transformAll i18n exs).map sortResults

/-- The CSV header row written by the script. -/
def csvHeader : List String := ["Name", "Body Parts", "Muscles", "Equipment"]

/-- One CSV data row: name plus the three label lists joined with `"; "`;
`thumbnail` and `video` are not written. -/
def csvRow (r : CleanExerciseRecord) : List String :=
  [r.name,
   String.intercalate "; " r.body_parts,
   String.intercalate "; " r.muscles,
   String.intercalate "; " r.equipment]

/-- The rows of `exercises.csv`: header row then one row per record. -/
def csvRows (rs : List CleanExerciseRecord) : List (List String) :=
  csvHeader :: rs.map csvRow

/-! ### The localization loader (`load_i18n`)

The script reads the file text, calls `text.strip()`, removes a leading
match of the regular expression `^window\.\w+=`, strips trailing
semicolons with `.rstrip(";")`, and hands the remainder to `json.loads`.
We model the text operations character-exactly on `List Char`, and model
`json.loads` by a parser for the JSON fragment the localization file
lives in: a single object whose keys and values are strings. -/

/-- Whitespace as stripped by Python `str.strip()` (ASCII fragment). -/
def pyIsSpace (c : Char) : Bool :=
  c = ' ' || c = '\t' || c = '\n' || c = '\r' || c = '\x0b' || c = '\x0c'

/-- Python `text.strip()`: drop leading and trailing whitespace. -/
def pyStrip (s : List Char) : List Char :=
  ((s.dropWhile pyIsSpace).reverse.dropWhile pyIsSpace).reverse

/-- Python `text.rstrip(";")`: drop trailing semicolons. -/
def pyRstripSemi (s : List Char) : List Char :=
  (s.reverse.dropWhile (fun c => c = ';')).reverse

/-- A regex word character (`\w`, ASCII fragment). -/
def isWordChar (c : Char) : Bool := c.isAlphanum || c = '_'

/-- The literal characters of the regex prefix `window\.`. -/
def windowChars : List Char := ['w', 'i', 'n', 'd', 'o', 'w', '.']

/-- `re.sub(r"^window\.\w+=", "", s)`: if `s` starts with `window.`, then
one or more word characters, then `=`, remove that prefix; otherwise
return `s` unchanged. -/
def stripAssign (s : List Char) : List Char :=
  if s.take 7 = windowChars then
    let rest := s.drop 7
    let w := rest.takeWhile isWordChar
    let after := rest.dropWhile isWordChar
    if w ≠ [] then
      match after with
      | '=' :: tail => tail
      | _ => s
    else s
  else s

/-- Whitespace skipped between JSON tokens. -/
def jsonWs (c : Char) : Bool := c = ' ' || c = '\t' || c = '\n' || c = '\r'

/-- Skip inter-token whitespace. -/
def skipWs (s : List Char) : List Char := s.dropWhile jsonWs

/-- Parse the body of a JSON string after the opening quote, handling the
escapes `\"` and `\\`; returns the string contents and the rest of the
input after the closing quote. -/
def parseJStr : List Char → Option (List Char × List Char)
  | [] => none
  | '\"' :: rest => some ([], rest)
  | '\\' :: '\"' :: rest => (parseJStr rest).map (fun p => ('\"' :: p.1, p.2))
  | '\\' :: '\\' :: rest => (parseJStr rest).map (fun p => ('\\' :: p.1, p.2))
  | '\\' :: _ :: _ => none
  | ['\\'] => none
  | c :: rest => (parseJStr rest).map (fun p => (c :: p.1, p.2))

/-- Parse one `"key": "value"` member of a JSON object. -/
def parsePair (s : List Char) : Option ((String × String) × List Char) :=
  match skipWs s with
  | '\"' :: rest =>
    match parseJStr rest with
    | none => none
    | some (k, r1) =>
      match skipWs r1 with
      | ':' :: r2 =>
        match skipWs r2 with
        | '\"' :: r3 =>
          match parseJStr r3 with
          | none => none
          | some (v, r4) => some ((String.mk k, String.mk v), r4)
        | _ => none
      | _ => none
  | _ => none

/-- Parse a comma-separated sequence of object members; fuel bounds the
recursion by the input length. -/
def parseMembers : Nat → List Char → Option (List (String × String) × List Char)
  | 0, _ => none
  | fuel + 1, s =>
    match parsePair s with
    | none => none
    | some (kv, rest) =>
      match skipWs rest with
      | ',' :: rest2 =>
        match parseMembers fuel rest2 with
        | none => none
        | some (kvs, r) => some (kv :: kvs, r)
      | other => some ([kv], other)

/-- `json.loads` restricted to a flat object from strings to strings:
the shape of the localization table. -/
def jsonParseObj (s : List Char) : Option (List (String × String)) :=
  match skipWs s with
  | '\x7b' :: rest =>
    match skipWs rest with
    | '\x7d' :: tail => if skipWs tail = [] then some [] else none
    | _ =>
      match parseMembers (s.length + 1) rest with
      | some (kvs, r) =>
        match skipWs r with
        | '\x7d' :: tail => if skipWs tail = [] then some kvs else none
        | _ => none
      | none => none
  | _ => none

/-- The whole `load_i18n` body applied to the file text: strip
whitespace, remove the `window.<word>=` assignment prefix, strip trailing
semicolons, parse the remaining JSON object. -/
def load_i18n (text : List Char) : Option (List (String × String)) :=
  jsonParseObj (pyRstripSemi (stripAssign (pyStrip text)))

/-! ### JSON output and round trip

`json.dump` serializes the list of result dictionaries and `json.loads`
reads it back; both are the standard library, the repository's
contribution is the shape of the dictionaries.  We model the serialized
form as a JSON value tree and the read-back as structural decoding. -/

/-- The JSON fragment the output file lives in. -/
inductive JsonVal where
  | str : String → JsonVal
  | arr : List JsonVal → JsonVal
  | obj : List (String × JsonVal) → JsonVal

/-- The JSON object written for one clean record, keys in the order the
script builds the dictionary. -/
def encodeClean (r : CleanExerciseRecord) : JsonVal :=
  .obj
    [("name", .str r.name),
     ("body_parts", .arr (r.body_parts.map .str)),
     ("muscles", .arr (r.muscles.map .str)),
     ("equipment", .arr (r.equipment.map .str)),
     ("thumbnail", .str r.thumbnail),
     ("video", .str r.video)]

/-- The JSON array written to `exercises-clean.json`. -/
def encodeResults (rs : List CleanExerciseRecord) : JsonVal :=
  .arr (rs.map encodeClean)

/-- Read back a JSON array of strings. -/
def decodeStrList : List JsonVal → Option (List String)
  | [] => some []
  | .str s :: rest => (decodeStrList rest).map (fun l => s :: l)
  | _ => none

/-- Read one clean record back from its JSON object. -/
def decodeClean : JsonVal → Option CleanExerciseRecord
  | .obj [("name", .str n), ("body_parts", .arr bp), ("muscles", .arr ms),
          ("equipment", .arr eq), ("thumbnail", .str t), ("video", .str v)] =>
    match decodeStrList bp, decodeStrList ms, decodeStrList eq with
    | some bp2, some ms2, some eq2 => some ⟨n, bp2, ms2, eq2, t, v⟩
    | _, _, _ => none
  | _ => none

/-- Read back a list of clean records. -/
def decodeCleanList : List JsonVal → Option (List CleanExerciseRecord)
  | [] => some []
  | j :: rest =>
    match decodeClean j with
    | none => none
    | some r => (decodeCleanList rest).map (fun l => r :: l)

/-- Read the whole output collection back from the written JSON value. -/
def decodeResults : JsonVal → Option (List CleanExerciseRecord)
  | .arr js => decodeCleanList js
  | _ => none

/-! ## Theorems -/

/-- Unfolding the successful branch of `transformRecord`. -/
theorem transformRecord_some (i18n : String → Option String)
    (ex : RawExerciseRecord) (c : String) (hname : ex.name = some c) :
    transformRecord i18n ex =
      some
        ⟨(i18n c).getD c,
         ((ex.part).getD []).map (lookupLabel BODY_PARTS),
         ((ex.muscle).getD []).map (lookupLabel MUSCLES),
         ((ex.equipment).getD []).map (lookupLabel EQUIPMENT),
         if (ex.coverUrlArrStr).getD "" ≠ ""
           then (pySplitComma ((ex.coverUrlArrStr).getD "")).headD "" else "",
         (ex.videoUrl).getD ""⟩ := by
  simp [transformRecord, hname]

/-- A successful transform forces the `name` field to be present. -/
theorem transformRecord_name_of_some (i18n : String → Option String)
    (ex : RawExerciseRecord) (out : CleanExerciseRecord)
    (hout : transformRecord i18n ex = some out) :
    ∃ c, ex.name = some c := by
  cases hn : ex.name with
  | none => rw [transformRecord, hn] at hout; cases hout
  | some c => exact ⟨c, rfl⟩

/-- Claim C1, as stated, is false: a raw record with no `name` field does
not degrade gracefully.  `main` reads `ex["name"]` with a plain
subscript, so the transform aborts (returns `none` in the embedding)
even though every other field is present. -/
theorem C1_counterexample :
    transformRecord (fun _ => none)
      ⟨none, some [1], some [2], some [3], some "http://a,http://b", some "http://v"⟩
      = none := rfl

/-- Claim C1 (amended): a missing `part`/`muscle`/`equipment`/
`coverUrlArrStr`/`videoUrl` field degrades gracefully, but the `name`
field is required — the transform of a record succeeds exactly when the
record carries a `name` field, and aborts otherwise. -/
theorem C1_theorem (i18n : String → Option String) (ex : RawExerciseRecord) :
    (transformRecord i18n ex).isSome = (ex.name).isSome := by
  cases hn : ex.name with
  | none => rw [transformRecord, hn]; rfl
  | some c => rw [transformRecord_some i18n ex c hn]; rfl

/-- Claim C3: the clean record's name is the localization image of the
raw `name` code when the code is a key of the mapping, and the raw code
itself otherwise. -/
theorem C3_theorem (i18n : String → Option String) (ex : RawExerciseRecord)
    (c : String) (out : CleanExerciseRecord)
    (hname : ex.name = some c)
    (hout : transformRecord i18n ex = some out) :
    (∀ s, i18n c = some s → out.name = s) ∧ (i18n c = none → out.name = c) := by
  rw [transformRecord_some i18n ex c hname] at hout
  have h : out.name = (i18n c).getD c := by
    cases hout; rfl
  constructor
  · intro s hs; rw [h, hs]; rfl
  · intro hn; rw [h, hn]; rfl

/-- Concrete instance of claim C3: the spec's scenario record. -/
theorem C3_witness :
    (∀ s, (fun t => if t = "x1" then some "Push Up" else none) "x1" = some s →
      (CleanExerciseRecord.mk "Push Up" [] [] [] "" "").name = s) ∧
    ((fun t => if t = "x1" then some "Push Up" else none) "x1" = none →
      (CleanExerciseRecord.mk "Push Up" [] [] [] "" "").name = "x1") :=
  C3_theorem (fun t => if t = "x1" then some "Push Up" else none)
    ⟨some "x1", none, none, none, none, none⟩ "x1"
    ⟨"Push Up", [], [], [], "", ""⟩ rfl (by decide)

/-- Claim C4: each of the three label lists is the elementwise image, in
source order, of the corresponding code array (defaulting to the empty
array when the field is absent); a code inside the respective table maps
to its label, and a code outside it maps to `"Unknown(<code>)"` with the
decimal rendering of the integer. -/
theorem C4_theorem (i18n : String → Option String) (ex : RawExerciseRecord)
    (out : CleanExerciseRecord)
    (hout : transformRecord i18n ex = some out) :
    out.body_parts = ((ex.part).getD []).map (lookupLabel BODY_PARTS) ∧
    out.muscles = ((ex.muscle).getD []).map (lookupLabel MUSCLES) ∧
    out.equipment = ((ex.equipment).getD []).map (lookupLabel EQUIPMENT) ∧
    (∀ (table : Int → Option String) (code : Int) (lbl : String),
      table code = some lbl → lookupLabel table code = lbl) ∧
    (∀ (table : Int → Option String) (code : Int),
      table code = none →
        lookupLabel table code = "Unknown(" ++ toString code ++ ")") := by
  obtain ⟨c, hname⟩ := transformRecord_name_of_some i18n ex out hout
  rw [transformRecord_some i18n ex c hname] at hout
  cases hout
  refine ⟨rfl, rfl, rfl, ?_, ?_⟩
  · intro table code lbl h; rw [lookupLabel, h]; rfl
  · intro table code h; rw [lookupLabel, h]; rfl

/-- Concrete instance of claim C4: the spec's scenario record, with the
in-table codes `0` (body part) and `1` (equipment) and the out-of-table
muscle code `99`. -/
theorem C4_witness :
    (CleanExerciseRecord.mk "x1" ["Whole Body"] ["Unknown(99)"] ["Bodyweight"] "" "").body_parts
        = ((some [(0 : Int)]).getD []).map (lookupLabel BODY_PARTS) ∧
    (CleanExerciseRecord.mk "x1" ["Whole Body"] ["Unknown(99)"] ["Bodyweight"] "" "").muscles
        = ((some [(99 : Int)]).getD []).map (lookupLabel MUSCLES) ∧
    (CleanExerciseRecord.mk "x1" ["Whole Body"] ["Unknown(99)"] ["Bodyweight"] "" "").equipment
        = ((some [(1 : Int)]).getD []).map (lookupLabel EQUIPMENT) ∧
    (∀ (table : Int → Option String) (code : Int) (lbl : String),
      table code = some lbl → lookupLabel table code = lbl) ∧
    (∀ (table : Int → Option String) (code : Int),
      table code = none →
        lookupLabel table code = "Unknown(" ++ toString code ++ ")") :=
  C4_theorem (fun _ => none)
    ⟨some "x1", some [0], some [99], some [1], none, none⟩
    ⟨"x1", ["Whole Body"], ["Unknown(99)"], ["Bodyweight"], "", ""⟩ (by decide)

/-- Claim C7: `video` is the raw `videoUrl` verbatim (empty when
absent); `thumbnail` is the first comma-separated element of the
cover-URL string when that string is non-empty, and empty when the
string is empty or the field absent. -/
theorem C7_theorem (i18n : String → Option String) (ex : RawExerciseRecord)
    (out : CleanExerciseRecord)
    (hout : transformRecord i18n ex = some out) :
    out.video = (ex.videoUrl).getD "" ∧
    ((ex.coverUrlArrStr).getD "" = "" → out.thumbnail = "") ∧
    ((ex.coverUrlArrStr).getD "" ≠ "" →
      out.thumbnail = (pySplitComma ((ex.coverUrlArrStr).getD "")).headD "") := by
  obtain ⟨c, hname⟩ := transformRecord_name_of_some i18n ex out hout
  rw [transformRecord_some i18n ex c hname] at hout
  cases hout
  refine ⟨rfl, ?_, ?_⟩
  · intro h; simp [h]
  · intro h; simp [h]

/-- Concrete instance of claim C7: the spec's scenario record with two
cover URLs and a video URL. -/
theorem C7_witness :
    (CleanExerciseRecord.mk "x1" [] [] [] "http://a" "http://v").video
        = (some "http://v").getD "" ∧
    ((some "http://a,http://b").getD "" = "" →
      (CleanExerciseRecord.mk "x1" [] [] [] "http://a" "http://v").thumbnail = "") ∧
    ((some "http://a,http://b").getD "" ≠ "" →
      (CleanExerciseRecord.mk "x1" [] [] [] "http://a" "http://v").thumbnail
        = (pySplitComma ((some "http://a,http://b").getD "")).headD "") :=
  C7_theorem (fun _ => none)
    ⟨some "x1", none, none, none, some "http://a,http://b", some "http://v"⟩
    ⟨"x1", [], [], [], "http://a", "http://v"⟩ (by decide)

/-- `splitCommaAux` never yields the empty list of groups. -/
theorem splitCommaAux_ne_nil (l : List Char) : splitCommaAux l ≠ [] := by
  rw [splitCommaAux.eq_def]
  split
  · simp
  · simp
  · split <;> simp

/-- The first group produced by splitting on commas is comma-free. -/
theorem comma_not_mem_splitCommaAux_head (l : List Char) :
    ∀ (g : List Char) (gs : List (List Char)),
      splitCommaAux l = g :: gs → ',' ∉ g := by
  induction l with
  | nil =>
    intro g gs h
    rw [splitCommaAux] at h
    cases h
    simp
  | cons c rest ih =>
    intro g gs h
    rw [splitCommaAux.eq_def] at h
    split at h
    · rename_i x heq
      simp at heq
    · rename_i x rest2 heq
      cases h
      simp
    · rename_i x1 c2 rest2 hne heq
      injection heq with hc hrest
      subst hc
      subst hrest
      revert h
      split
      · rename_i hnil
        exact absurd hnil (splitCommaAux_ne_nil rest)
      · rename_i x2 g0 gs0 heq0
        intro h
        injection h with h1 h2
        subst h1
        simp only [List.mem_cons]
        rintro (hcg | hg)
        · exact hne hcg.symm
        · exact ih g0 gs0 heq0 hg

/-- Claim C10: the thumbnail of a clean record never contains a comma —
it is either empty or the comma-free first segment of the cover-URL
string. -/
theorem C10_theorem (i18n : String → Option String) (ex : RawExerciseRecord)
    (out : CleanExerciseRecord)
    (hout : transformRecord i18n ex = some out) :
    ',' ∉ out.thumbnail.data := by
  obtain ⟨c, hname⟩ := transformRecord_name_of_some i18n ex out hout
  rw [transformRecord_some i18n ex c hname] at hout
  have hth : out.thumbnail =
      if (ex.coverUrlArrStr).getD "" ≠ ""
        then (pySplitComma ((ex.coverUrlArrStr).getD "")).headD "" else "" := by
    cases hout; rfl
  by_cases hcov : (ex.coverUrlArrStr).getD "" = ""
  · rw [hth, if_neg (by simp [hcov])]
    simp
  · rw [hth, if_pos hcov]
    rcases hsplit : splitCommaAux ((ex.coverUrlArrStr).getD "").data with _ | ⟨g, gs⟩
    · exact absurd hsplit (splitCommaAux_ne_nil _)
    · have hg := comma_not_mem_splitCommaAux_head _ g gs hsplit
      simp [pySplitComma, hsplit, hg]

/-- Concrete instance of claim C10: the scenario record with two cover
URLs. -/
theorem C10_witness :
    ',' ∉ (CleanExerciseRecord.mk "x1" [] [] [] "http://a" "http://v").thumbnail.data :=
  C10_theorem (fun _ => none)
    ⟨some "x1", none, none, none, some "http://a,http://b", some "http://v"⟩
    ⟨"x1", [], [], [], "http://a", "http://v"⟩ (by decide)

/-- Claim C8: the CSV consists of the header row
`Name, Body Parts, Muscles, Equipment` followed by one row per clean
record — so the row count is the length of the written JSON array plus
one — and each data row joins the three label lists with `"; "`, with
`thumbnail` and `video` omitted. -/
theorem C8_theorem (rs : List CleanExerciseRecord) :
    (csvRows rs).length = rs.length + 1 ∧
    (csvRows rs).length = (rs.map encodeClean).length + 1 ∧
    csvRows rs = ["Name", "Body Parts", "Muscles", "Equipment"] :: rs.map csvRow ∧
    ∀ r : CleanExerciseRecord, csvRow r =
      [r.name, String.intercalate "; " r.body_parts,
       String.intercalate "; " r.muscles, String.intercalate "; " r.equipment] := by
  refine ⟨?_, ?_, rfl, fun r => rfl⟩
  · simp [csvRows]
  · simp [csvRows]

/-- Decoding inverts encoding on arrays of strings. -/
theorem decodeStrList_map_str :
    ∀ xs : List String, decodeStrList (xs.map JsonVal.str) = some xs
  | [] => rfl
  | x :: xs => by
    rw [List.map_cons, decodeStrList, decodeStrList_map_str xs]
    rfl

/-- Decoding inverts encoding on one clean record. -/
theorem decodeClean_encodeClean (r : CleanExerciseRecord) :
    decodeClean (encodeClean r) = some r := by
  rw [encodeClean, decodeClean]
  rw [decodeStrList_map_str, decodeStrList_map_str, decodeStrList_map_str]

/-- Decoding inverts encoding on a list of clean records. -/
theorem decodeCleanList_map_encodeClean :
    ∀ rs : List CleanExerciseRecord,
      decodeCleanList (rs.map encodeClean) = some rs
  | [] => rfl
  | r :: rs => by
    rw [List.map_cons, decodeCleanList, decodeClean_encodeClean r,
      decodeCleanList_map_encodeClean rs]
    rfl

/-- Claim C9: reading the written JSON output back yields a collection
equal field-for-field to the in-memory collection that was serialized. -/
theorem C9_theorem (rs : List CleanExerciseRecord) :
    decodeResults (encodeResults rs) = some rs := by
  rw [encodeResults, decodeResults]
  exact decodeCleanList_map_encodeClean rs

/-- A successful `transformAll` relates input and output pointwise. -/
theorem transformAll_forall2 (i18n : String → Option String) :
    ∀ (exs : List RawExerciseRecord) (mid : List CleanExerciseRecord),
      transformAll i18n exs = some mid →
      List.Forall₂ (fun ex r => transformRecord i18n ex = some r) exs mid := by
  intro exs
  induction exs with
  | nil =>
    intro mid h
    rw [transformAll] at h
    cases h
    exact List.Forall₂.nil
  | cons ex rest ih =>
    intro mid h
    rw [transformAll] at h
    revert h
    split
    · intro h; cases h
    · rename_i r hr
      split
      · intro h; cases h
      · rename_i rs hrs
        intro h
        cases h
        exact List.Forall₂.cons hr (ih rs hrs)

/-- Claim C5: when the pipeline succeeds, the output collection has
exactly as many records as the input, and each output record is the
transform of exactly one input record (the output is a permutation of
the pointwise transforms). -/
theorem C5_theorem (i18n : String → Option String)
    (exs : List RawExerciseRecord) (out : List CleanExerciseRecord)
    (h : runPipeline i18n exs = some out) :
    out.length = exs.length ∧
    ∃ mid, transformAll i18n exs = some mid ∧
      List.Forall₂ (fun ex r => transformRecord i18n ex = some r) exs mid ∧
      out.Perm mid := by
  rw [runPipeline] at h
  cases hmid : transformAll i18n exs with
  | none => rw [hmid] at h; cases h
  | some mid =>
    rw [hmid] at h
    injection h with h2
    subst h2
    have hperm : (sortResults mid).Perm mid := List.perm_insertionSort byName mid
    have hf := transformAll_forall2 i18n exs mid hmid
    exact ⟨by rw [hperm.length_eq, hf.length_eq], mid, rfl, hf, hperm⟩

/-- Concrete instance of claim C5: a one-record input. -/
theorem C5_witness :
    ([CleanExerciseRecord.mk "x1" [] [] [] "" ""]).length
        = ([RawExerciseRecord.mk (some "x1") none none none none none]).length ∧
    ∃ mid,
      transformAll (fun _ => none)
          [RawExerciseRecord.mk (some "x1") none none none none none] = some mid ∧
      List.Forall₂ (fun ex r => transformRecord (fun _ => none) ex = some r)
        [RawExerciseRecord.mk (some "x1") none none none none none] mid ∧
      ([CleanExerciseRecord.mk "x1" [] [] [] "" ""]).Perm mid :=
  C5_theorem (fun _ => none)
    [RawExerciseRecord.mk (some "x1") none none none none none]
    [CleanExerciseRecord.mk "x1" [] [] [] "" ""] (by decide)

/-- The sorted output is pairwise ordered by display name. -/
theorem sortResults_sorted (rs : List CleanExerciseRecord) :
    List.Sorted byName (sortResults rs) :=
  List.sorted_insertionSort byName rs

/-- Stability of the sort: filtering the sorted list down to the records
with any one fixed name gives exactly the same sequence as filtering the
unsorted list. -/
theorem sortResults_filter_name (rs : List CleanExerciseRecord) (s : String) :
    (sortResults rs).filter (fun r => decide (r.name = s))
      = rs.filter (fun r => decide (r.name = s)) := by
  have hmem : ∀ a ∈ rs.filter (fun r => decide (r.name = s)), a.name = s := by
    intro a ha
    rw [List.mem_filter] at ha
    exact of_decide_eq_true ha.2
  have hpair : (rs.filter (fun r => decide (r.name = s))).Pairwise byName := by
    apply List.pairwise_of_forall_mem_list
    intro a ha b hb
    rw [byName, hmem a ha, hmem b hb]
  have h1 : List.Sublist (rs.filter (fun r => decide (r.name = s))) (sortResults rs) :=
    List.sublist_insertionSort hpair (List.filter_sublist rs)
  have h2 : (rs.filter (fun r => decide (r.name = s))).filter
      (fun r => decide (r.name = s)) = rs.filter (fun r => decide (r.name = s)) :=
    List.filter_eq_self.mpr (fun a ha => by
      have := hmem a ha
      simp [this])
  have h3 : List.Sublist (rs.filter (fun r => decide (r.name = s)))
      ((sortResults rs).filter (fun r => decide (r.name = s))) :=
    h2 ▸ h1.filter (fun r => decide (r.name = s))
  have h4 : ((sortResults rs).filter (fun r => decide (r.name = s))).length
      = (rs.filter (fun r => decide (r.name = s))).length :=
    ((List.perm_insertionSort byName rs).filter (fun r => decide (r.name = s))).length_eq
  exact (h3.eq_of_length h4.symm).symm

/-- Claim C6: the pipeline output is sorted ascending by name, the sort
is stable (records of equal name keep the relative order they had in the
transformed input), and re-sorting the output changes nothing. -/
theorem C6_theorem (i18n : String → Option String)
    (exs : List RawExerciseRecord) (out : List CleanExerciseRecord)
    (h : runPipeline i18n exs = some out) :
    List.Sorted byName out ∧
    (∀ mid, transformAll i18n exs = some mid →
      ∀ s, out.filter (fun r => decide (r.name = s))
        = mid.filter (fun r => decide (r.name = s))) ∧
    sortResults out = out := by
  rw [runPipeline] at h
  cases hmid : transformAll i18n exs with
  | none => rw [hmid] at h; cases h
  | some mid =>
    rw [hmid] at h
    injection h with h2
    subst h2
    refine ⟨sortResults_sorted mid, ?_, ?_⟩
    · intro mid2 hmid2 s
      injection hmid2 with h3
      subst h3
      exact sortResults_filter_name mid s
    · rw [sortResults]
      exact List.Sorted.insertionSort_eq (sortResults_sorted mid)

/-- Concrete instance of claim C6: a one-record input. -/
theorem C6_witness :
    List.Sorted byName [CleanExerciseRecord.mk "x1" [] [] [] "" ""] ∧
    (∀ mid, transformAll (fun _ => none)
        [RawExerciseRecord.mk (some "x1") none none none none none] = some mid →
      ∀ s, ([CleanExerciseRecord.mk "x1" [] [] [] "" ""]).filter
          (fun r => decide (r.name = s))
        = mid.filter (fun r => decide (r.name = s))) ∧
    sortResults [CleanExerciseRecord.mk "x1" [] [] [] "" ""]
      = [CleanExerciseRecord.mk "x1" [] [] [] "" ""] :=
  C6_theorem (fun _ => none)
    [RawExerciseRecord.mk (some "x1") none none none none none]
    [CleanExerciseRecord.mk "x1" [] [] [] "" ""] (by decide)

/-- Claim C2, as stated, is false: the loader's regex demands the
literal prefix `window.` before the word characters, so for an input
whose assignment prefix is a plain identifier (here `abc=`) nothing is
stripped and the JSON parse fails, even though the wrapped JSON object
itself parses fine. -/
theorem C2_counterexample :
    load_i18n ("abc=\x7b\"a\":\"b\"\x7d;").data = none ∧
    jsonParseObj ("\x7b\"a\":\"b\"\x7d").data = some [("a", "b")] :=
  ⟨rfl, rfl⟩

/-- Dropping while a predicate holds skips a fully-satisfying prefix. -/
theorem dropWhile_append_sat {α : Type} (p : α → Bool) (a b : List α)
    (h : ∀ c ∈ a, p c) : (a ++ b).dropWhile p = b.dropWhile p := by
  induction a with
  | nil => rfl
  | cons x xs ih =>
    rw [List.cons_append, List.dropWhile_cons, if_pos (h x (List.mem_cons_self x xs))]
    exact ih (fun c hc => h c (List.mem_cons_of_mem x hc))

/-- Dropping while a predicate holds stops at a failing head. -/
theorem dropWhile_cons_neg {α : Type} (p : α → Bool) (x : α) (xs : List α)
    (h : ¬ p x) : (x :: xs).dropWhile p = x :: xs := by
  rw [List.dropWhile_cons, if_neg h]

/-- Stripping a fully-satisfying suffix from the right recovers the
remainder when the remainder does not end in a satisfying element. -/
theorem rstrip_append_sat {α : Type} (p : α → Bool) (m b : List α)
    (hb : ∀ c ∈ b, p c) (hm : ∀ c, m.getLast? = some c → ¬ p c) :
    ((m ++ b).reverse.dropWhile p).reverse = m := by
  rw [List.reverse_append]
  rw [dropWhile_append_sat p b.reverse m.reverse
    (fun c hc => hb c (List.mem_reverse.mp hc))]
  cases hmr : m.reverse with
  | nil =>
    have hm0 : m = [] := by
      have := congrArg List.reverse hmr
      simpa using this
    rw [hm0]
    rfl
  | cons x xs =>
    have hx : m.getLast? = some x := by
      rw [List.getLast?_eq_head?_reverse, hmr]
      rfl
    rw [dropWhile_cons_neg p x xs (hm x hx), ← hmr, List.reverse_reverse]

/-- Python's two-sided `strip` keeps exactly the middle when the flanks
fully satisfy the predicate and the middle's two ends do not. -/
theorem strip_middle {α : Type} (p : α → Bool) (a m b : List α)
    (ha : ∀ c ∈ a, p c) (hb : ∀ c ∈ b, p c)
    (hh : ∀ c, m.head? = some c → ¬ p c)
    (hl : ∀ c, m.getLast? = some c → ¬ p c) :
    (((a ++ (m ++ b)).dropWhile p).reverse.dropWhile p).reverse = m := by
  rw [dropWhile_append_sat p a (m ++ b) ha]
  cases m with
  | nil =>
    rw [List.nil_append, List.dropWhile_eq_nil_iff.mpr hb]
    rfl
  | cons x xs =>
    rw [List.cons_append, dropWhile_cons_neg p x (xs ++ b) (hh x rfl), ← List.cons_append]
    exact rstrip_append_sat p (x :: xs) b hb hl

/-- `takeWhile`/`dropWhile` split an all-satisfying run at the first
failing element. -/
theorem takeWhile_break {α : Type} (p : α → Bool) (w : List α) (x : α) (t : List α)
    (hw : ∀ c ∈ w, p c) (hx : ¬ p x) :
    (w ++ x :: t).takeWhile p = w ∧ (w ++ x :: t).dropWhile p = x :: t := by
  induction w with
  | nil =>
    rw [List.nil_append]
    exact ⟨by rw [List.takeWhile_cons, if_neg hx], dropWhile_cons_neg p x t hx⟩
  | cons y ys ih =>
    have hy := hw y (List.mem_cons_self y ys)
    obtain ⟨ih1, ih2⟩ := ih (fun c hc => hw c (List.mem_cons_of_mem y hc))
    constructor
    · rw [List.cons_append, List.takeWhile_cons, if_pos hy, ih1]
    · rw [List.cons_append, List.dropWhile_cons, if_pos hy, ih2]

/-- The regex substitution removes exactly a well-formed
`window.<word characters>=` prefix. -/
theorem stripAssign_eq (w tail : List Char) (hw : w ≠ [])
    (hwc : ∀ c ∈ w, isWordChar c) :
    stripAssign (windowChars ++ (w ++ '=' :: tail)) = tail := by
  have hlen : windowChars.length = 7 := rfl
  have htake : (windowChars ++ (w ++ '=' :: tail)).take 7 = windowChars := by
    rw [← hlen, List.take_left]
  have hdrop : (windowChars ++ (w ++ '=' :: tail)).drop 7 = w ++ '=' :: tail := by
    rw [← hlen, List.drop_left]
  obtain ⟨ht, hd⟩ := takeWhile_break isWordChar w '=' tail hwc (by decide)
  rw [stripAssign, if_pos htake]
  simp only [hdrop, ht, hd]
  rw [if_pos hw]

/-- `rstrip(";")` removes exactly a trailing run of semicolons when the
remainder does not end in a semicolon. -/
theorem pyRstripSemi_append (j semis : List Char)
    (hsemis : ∀ c ∈ semis, c = ';')
    (hjl : ∀ c, j.getLast? = some c → c ≠ ';') :
    pyRstripSemi (j ++ semis) = j := by
  rw [pyRstripSemi]
  exact rstrip_append_sat _ j semis
    (fun c hc => by simp [hsemis c hc])
    (fun c hc => by simp [hjl c hc])

/-- Claim C2 (amended): the loader returns the parse of the wrapped JSON
object for inputs whose assignment prefix has the form
`window.<word characters>=` — not for an arbitrary `<identifier>=`
prefix — optionally surrounded by whitespace and followed by trailing
semicolons. -/
theorem C2_theorem (ws1 ws2 semis w j : List Char) (m : List (String × String))
    (hws1 : ∀ c ∈ ws1, pyIsSpace c) (hws2 : ∀ c ∈ ws2, pyIsSpace c)
    (hsemis : ∀ c ∈ semis, c = ';')
    (hw : w ≠ []) (hwc : ∀ c ∈ w, isWordChar c)
    (hj : j ≠ [])
    (hj1 : ¬ pyIsSpace (j.getLast hj)) (hj2 : j.getLast hj ≠ ';')
    (hparse : jsonParseObj j = some m) :
    load_i18n (ws1 ++ ((windowChars ++ (w ++ '=' :: (j ++ semis))) ++ ws2)) = some m := by
  have hjlast : j.getLast? = some (j.getLast hj) := List.getLast?_eq_getLast j hj
  have hstrip : pyStrip (ws1 ++ ((windowChars ++ (w ++ '=' :: (j ++ semis))) ++ ws2))
      = windowChars ++ (w ++ '=' :: (j ++ semis)) := by
    rw [pyStrip]
    apply strip_middle pyIsSpace ws1 _ ws2 hws1 hws2
    · intro c hc
      have : some 'w' = some c := hc
      injection this with h
      subst h
      decide
    · intro c hc
      have hcons : ('=' :: (j ++ semis)).getLast? = (j ++ semis).getLast? := by
        rcases j with _ | ⟨x, xs⟩
        · exact absurd rfl hj
        · simp
      rw [List.getLast?_append, List.getLast?_append, hcons, List.getLast?_append] at hc
      rcases hse : semis.getLast? with _ | c0
      · rw [hse, hjlast] at hc
        simp only [Option.or] at hc
        injection hc with h
        subst h
        exact hj1
      · have hc0 : c0 = ';' := by
          rcases List.eq_nil_or_concat semis with hnil | ⟨s0, a0, hcat⟩
          · rw [hnil] at hse; cases hse
          · rw [List.concat_eq_append] at hcat
            rw [hcat, List.getLast?_concat] at hse
            injection hse with h0
            rw [← h0]
            exact hsemis a0 (by
              rw [hcat]
              exact List.mem_append_right s0 (List.mem_singleton.mpr rfl))
        rw [hse] at hc
        simp only [Option.or] at hc
        injection hc with h
        subst h
        rw [hc0]
        decide
  rw [load_i18n, hstrip, stripAssign_eq w (j ++ semis) hw hwc,
    pyRstripSemi_append j semis hsemis (fun c hc => by
      rw [hjlast] at hc
      injection hc with h
      subst h
      exact hj2),
    hparse]

/-- Concrete instance of claim C2: the spec's scenario localization file
content, with surrounding whitespace and a trailing semicolon. -/
theorem C2_witness :
    load_i18n ([' '] ++ ((windowChars ++ (("en_US").data ++ '=' ::
        (("\x7b\"a\":\"Squat\"\x7d").data ++ [';']))) ++ [' '])) = some [("a", "Squat")] :=
  C2_theorem [' '] [' '] [';'] ("en_US").data ("\x7b\"a\":\"Squat\"\x7d").data
    [("a", "Squat")] (by decide) (by decide) (by decide) (by decide) (by decide)
    (by decide) (by decide) (by decide) rfl
